import Mathlib

/-!
Verification of the market-signals ingestion pipeline (src/main.py).

Shallow embedding of the core pipeline:
* the anti-spam ledger (`load_seen`, `save_seen`, `is_new`),
* the dual-sink persister (`push`, here `push` for the normal path and
  `pushF` with sink-failure injection),
* the retrying fetch helper (`get_feed`),
* the orchestration of a run as a fold over offered candidate records.

The Python `seen` set is a `Finset String`; the sinks (sqlite table and
csv file, both append-only in the script) are `List Row`; the durable
ledger file is a `LedgerFile`; raised exceptions are `Except` errors.
-/

namespace MarketSignals

/-- A persisted row: the five columns of the `signals` table
`(ts, source, ticker, headline, extra)`; the csv rows carry the same
five values (`push` passes the very same `row` to both sinks). -/
structure Row where
  ts : String
  source : String
  ticker : String
  headline : String
  extra : String
deriving DecidableEq, Repr

/-- The durable ledger file `.last_seen.json`: absent, present with
content that does not deserialize, or present with a serialized list of
identifiers. -/
inductive LedgerFile
  | absent
  | malformed
  | stored (ids : List String)
deriving DecidableEq, Repr

/-- Embeds `load_seen` (src/main.py:15-19): `set(json.load(open(MEMFILE)))`
with `except FileNotFoundError: return set()`.  Only a missing file is
caught; content that does not deserialize raises `json.JSONDecodeError`,
modelled as an `Except.error`. -/
def load_seen : LedgerFile → Except String (Finset String)
  | .absent => .ok ∅
  | .malformed => .error "JSONDecodeError"
  | .stored ids => .ok ids.toFinset

/-- Embeds `save_seen` (src/main.py:21-22): `json.dump(sorted(s), open(MEMFILE, "w"))`.
The serialized payload is the set's elements in sorted order. -/
def save_seen (s : Finset String) : List String :=
  s.sort (· ≤ ·)

/-- Opening `MEMFILE` with mode `"w"` truncates whatever was there, so the
flush replaces the file's content wholesale with the serialized set. -/
def flushLedger (s : Finset String) (_old : LedgerFile) : LedgerFile :=
  .stored (save_seen s)

/-- Embeds `is_new` (src/main.py:26-30): returns whether `uid` was unseen,
together with the updated `seen` set (the Python function mutates the
global `seen` via `seen.add(uid)` before returning `True`). -/
def is_new (seen : Finset String) (uid : String) : Bool × Finset String :=
  if uid ∈ seen then (false, seen)
  else (true, insert uid seen)

/-- Persister state: the in-memory ledger and the two append-only sinks
(sink A = sqlite `signals` table, sink B = `signals.csv`). -/
structure PState where
  seen : Finset String
  sinkA : List Row
  sinkB : List Row
deriving DecidableEq

/-- Embeds `push` (src/main.py:46-51) on the normal path where both sink
writes succeed: gate on `is_new uid`, then append `row` to sink A
(`cur.execute "INSERT INTO signals VALUES (?,?,?,?,?)"`) and then to
sink B (`csv.writer(csvfile).writerow(row)`). -/
def push (st : PState) (row : Row) (uid : String) : PState :=
  let r := is_new st.seen uid
  if r.1 then
    { seen := r.2, sinkA := st.sinkA ++ [row], sinkB := st.sinkB ++ [row] }
  else
    { st with seen := r.2 }

/-- Embeds `push` (src/main.py:46-51) with sink-failure injection: `aOk`
(resp. `bOk`) says whether the sink A insert (resp. the sink B csv write)
succeeds.  The statements run in source order — `is_new` first (which
already adds `uid` to `seen`), then the sink A insert, then the sink B
write — and a failing statement raises, which we model as `Except.error`
carrying the state at the moment of the exception. -/
def pushF (st : PState) (row : Row) (uid : String) (aOk bOk : Bool) :
    Except PState PState :=
  let r := is_new st.seen uid
  if r.1 then
    let st1 : PState := { st with seen := r.2 }
    if aOk then
      let st2 : PState := { st1 with sinkA := st1.sinkA ++ [row] }
      if bOk then
        .ok { st2 with sinkB := st2.sinkB ++ [row] }
      else
        .error st2
    else
      .error st1
  else
    .ok { st with seen := r.2 }

/-- One run segment: offer each `(row, uid)` candidate to `push` in order,
as the per-feed `for` loops in src/main.py:78-153 do. -/
def offersRun (st : PState) (offers : List (Row × String)) : PState :=
  offers.foldl (fun s p => push s p.1 p.2) st

/-- The sub-list of offers that pass the `is_new` gate and are therefore
written to both sinks (the trace of accepted candidates of a run). -/
def accepted (seen : Finset String) : List (Row × String) → List (Row × String)
  | [] => []
  | p :: rest =>
    let r := is_new seen p.2
    if r.1 then p :: accepted r.2 rest
    else accepted r.2 rest

/-- The in-memory ledger after a list of offers has been processed. -/
def seenAfter (seen : Finset String) : List (Row × String) → Finset String
  | [] => seen
  | p :: rest => seenAfter (is_new seen p.2).2 rest

/-- The feedparser result: all the pipeline reads from it is `.entries`,
which the per-feed loop turns into `(row, uid)` offers; we record the
entries already in that shape (the adapter mapping is a collaborator
concern). -/
structure Feed where
  entries : List (Row × String)
deriving DecidableEq, Repr

/-- The feed object `feedparser.parse(b"")` returned after the retry
budget is exhausted; it has no entries. -/
def emptyFeed : Feed := ⟨[]⟩

/-- Embeds the retry loop of `get_feed` (src/main.py:33-44).
`outcome n` is the result of the http-request-and-parse on 0-based
attempt `n` (`none` = the attempt raises); `jitter n` is the value of
`random.random()` drawn for the sleep after attempt `n`; `n` is the
current loop index and the second argument the remaining iterations of
`for n in range(tries)`.  Returns the returned feed (`none` when the loop
body never runs, i.e. `tries = 0`, where Python returns `None`), the
number of attempts performed, and the list of sleep durations
`3 * 2 ^ n + jitter n` in order. -/
def get_feedGo (outcome : Nat → Option Feed) (jitter : Nat → ℚ) :
    Nat → Nat → Option Feed × Nat × List ℚ
  | _, 0 => (none, 0, [])
  | n, remaining + 1 =>
    match outcome n with
    | some f => (some f, 1, [])
    | none =>
      if remaining = 0 then
        (some emptyFeed, 1, [])
      else
        let d := 3 * 2 ^ n + jitter n
        let r := get_feedGo outcome jitter (n + 1) remaining
        (r.1, r.2.1 + 1, d :: r.2.2)

/-- Embeds `get_feed` (src/main.py:33-44), starting the loop at `n = 0`
with the default `tries = 3`. -/
def get_feed (outcome : Nat → Option Feed) (jitter : Nat → ℚ)
    (tries : Nat := 3) : Option Feed × Nat × List ℚ :=
  get_feedGo outcome jitter 0 tries

/-- What a feed section iterates over: `get_feed(url).entries`.  (With
`tries ≥ 1` the Python function always returns a feed object.) -/
def feedEntries : Option Feed → List (Row × String)
  | some f => f.entries
  | none => []

/-- A whole run over several sources: each source contributes its list of
offers, processed in order against the shared persister state
(src/main.py processes the six feed sections sequentially). -/
def runSources (st : PState) (sources : List (List (Row × String))) : PState :=
  sources.foldl offersRun st

/-! ### Structural lemmas about the persister -/

lemma is_new_fst (seen : Finset String) (uid : String) :
    (is_new seen uid).1 = !decide (uid ∈ seen) := by
  by_cases h : uid ∈ seen <;> simp [is_new, h]

lemma is_new_snd (seen : Finset String) (uid : String) :
    (is_new seen uid).2 = insert uid seen := by
  unfold is_new
  by_cases h : uid ∈ seen
  · simp [h, Finset.insert_eq_self.mpr h]
  · simp [h]

/-- Decomposition of `offersRun`: the final ledger is `seenAfter`, and
both sinks are extended by exactly the rows of the accepted offers. -/
lemma offersRun_eq (st : PState) (offers : List (Row × String)) :
    offersRun st offers =
      ⟨seenAfter st.seen offers,
       st.sinkA ++ (accepted st.seen offers).map Prod.fst,
       st.sinkB ++ (accepted st.seen offers).map Prod.fst⟩ := by
  induction offers generalizing st with
  | nil => simp [offersRun, seenAfter, accepted]
  | cons p rest ih =>
    have hunf : offersRun st (p :: rest) = offersRun (push st p.1 p.2) rest := rfl
    rw [hunf, ih]
    by_cases h : (is_new st.seen p.2).1
    · simp [push, h, seenAfter, accepted]
    · simp [push, h, seenAfter, accepted]

lemma seenAfter_cons (seen : Finset String) (p : Row × String)
    (rest : List (Row × String)) :
    seenAfter seen (p :: rest) = seenAfter (insert p.2 seen) rest := by
  rw [show seenAfter seen (p :: rest) = seenAfter (is_new seen p.2).2 rest from rfl,
    is_new_snd]

lemma seenAfter_mem (seen : Finset String) (offers : List (Row × String))
    (u : String) :
    u ∈ seenAfter seen offers ↔ u ∈ seen ∨ ∃ p ∈ offers, p.2 = u := by
  induction offers generalizing seen with
  | nil => simp [seenAfter]
  | cons p rest ih =>
    rw [seenAfter_cons, ih]
    constructor
    · rintro (h | ⟨q, hq, hqu⟩)
      · rcases Finset.mem_insert.mp h with h | h
        · exact Or.inr ⟨p, List.mem_cons_self p rest, h.symm⟩
        · exact Or.inl h
      · exact Or.inr ⟨q, List.mem_cons_of_mem p hq, hqu⟩
    · rintro (h | ⟨q, hq, hqu⟩)
      · exact Or.inl (Finset.mem_insert_of_mem h)
      · rcases List.mem_cons.mp hq with rfl | hq
        · exact Or.inl (by rw [← hqu]; exact Finset.mem_insert_self _ _)
        · exact Or.inr ⟨q, hq, hqu⟩

lemma accepted_cons_mem (seen : Finset String) (p : Row × String)
    (rest : List (Row × String)) (h : p.2 ∈ seen) :
    accepted seen (p :: rest) = accepted seen rest := by
  have h1 : (is_new seen p.2).1 = false := by simp [is_new, h]
  have h2 : (is_new seen p.2).2 = seen := by
    rw [is_new_snd]; exact Finset.insert_eq_self.mpr h
  simp [accepted, h1, h2]

lemma accepted_cons_new (seen : Finset String) (p : Row × String)
    (rest : List (Row × String)) (h : p.2 ∉ seen) :
    accepted seen (p :: rest) = p :: accepted (insert p.2 seen) rest := by
  have h1 : (is_new seen p.2).1 = true := by simp [is_new, h]
  simp [accepted, h1, is_new_snd]

/-- Within one processed list of offers, each identifier is written at
most once, and is written exactly once when it was unseen at the start
and occurs among the offers. -/
lemma accepted_countP (seen : Finset String) (offers : List (Row × String))
    (u : String) :
    (accepted seen offers).countP (fun p => p.2 = u) =
      if u ∈ seen then 0
      else min 1 (offers.countP (fun p => p.2 = u)) := by
  induction offers generalizing seen with
  | nil => simp [accepted]
  | cons p rest ih =>
    by_cases hm : p.2 ∈ seen
    · rw [accepted_cons_mem seen p rest hm, ih]
      by_cases hu : u ∈ seen
      · simp [hu]
      · have hne : ¬(p.2 = u) := fun h => hu (h ▸ hm)
        simp [hu, List.countP_cons, hne]
    · rw [accepted_cons_new seen p rest hm, List.countP_cons, List.countP_cons, ih]
      by_cases hpu : p.2 = u
      · have humem : u ∈ insert p.2 seen := by
          rw [← hpu]; exact Finset.mem_insert_self _ _
        have huseen : u ∉ seen := fun h => hm (hpu ▸ h)
        simp only [humem, if_pos, huseen, if_neg, hpu]
        simp [hpu]
      · have hmem : u ∈ insert p.2 seen ↔ u ∈ seen := by
          rw [Finset.mem_insert]
          exact or_iff_right (fun h => hpu h.symm)
        by_cases hus : u ∈ seen <;> simp [hus, hmem, hpu]

lemma accepted_append (seen : Finset String) (l1 l2 : List (Row × String)) :
    accepted seen (l1 ++ l2) =
      accepted seen l1 ++ accepted (seenAfter seen l1) l2 := by
  induction l1 generalizing seen with
  | nil => simp [accepted, seenAfter]
  | cons p rest ih =>
    by_cases h : p.2 ∈ seen
    · rw [List.cons_append, accepted_cons_mem seen p _ h,
        accepted_cons_mem seen p _ h, ih, seenAfter_cons,
        Finset.insert_eq_self.mpr h]
    · rw [List.cons_append, accepted_cons_new seen p _ h,
        accepted_cons_new seen p _ h, ih, seenAfter_cons, List.cons_append]

/-- Serializing the set and deserializing it again gives the set back
(helper shared by several theorems below). -/
lemma save_load_eq (s : Finset String) :
    load_seen (.stored (save_seen s)) = .ok s := by
  simp [load_seen, save_seen, Finset.sort_toFinset]

/-- Sample concrete row used by witnesses and counterexamples. -/
def r0 : Row := ⟨"2024-05-01", "EARN", "ABC", "Earnings 2024-05-01", ""⟩

/-- Sample concrete identifier used by witnesses and counterexamples. -/
def uid0 : String := "earn-ABC-2024-05-01"

/-- Sample offer list: the same identifier offered twice in one run. -/
def offersA : List (Row × String) := [(r0, uid0), (r0, uid0)]

/-- Sample offer list for a second run re-offering the same identifier. -/
def offersB : List (Row × String) := [(r0, uid0)]

/-! ### Claim theorems -/

/-- C1, counterexample: the claim says that when the sink B write fails
after sink A succeeded, the identifier is not marked seen and the Ledger
is unchanged.  In the code `is_new` adds the identifier to `seen` before
either sink write, so on a sink B failure the error state already has the
identifier in the ledger (and the row in sink A): starting from the empty
state, offering `r0` with identifier "id0" while sink B fails leaves
`seen = {"id0"} ≠ ∅`. -/
theorem push_ledger_changed_on_sinkB_failure :
    pushF ⟨∅, [], []⟩ r0 "id0" true false = .error ⟨{"id0"}, [r0], []⟩ ∧
    ({"id0"} : Finset String) ≠ (∅ : Finset String) := by
  constructor
  · rfl
  · exact Finset.singleton_ne_empty _

/-- C1, amended: for an unseen identifier, `push` performs the sink A
write and then the sink B write in that order, but marks the identifier
seen in the in-memory ledger BEFORE the writes (inside `is_new`); hence
if sink B fails after sink A succeeded, the error state already has the
identifier marked seen and the row present in sink A only, and if sink A
fails neither sink has the row but the identifier is still marked. -/
theorem push_marks_before_writes (st : PState) (row : Row) (uid : String)
    (h : uid ∉ st.seen) :
    pushF st row uid true true =
      .ok ⟨insert uid st.seen, st.sinkA ++ [row], st.sinkB ++ [row]⟩ ∧
    pushF st row uid true false =
      .error ⟨insert uid st.seen, st.sinkA ++ [row], st.sinkB⟩ ∧
    pushF st row uid false false =
      .error ⟨insert uid st.seen, st.sinkA, st.sinkB⟩ := by
  have h1 : (is_new st.seen uid).1 = true := by simp [is_new, h]
  refine ⟨?_, ?_, ?_⟩ <;> simp [pushF, h1, is_new_snd]

/-- C1, witness for `push_marks_before_writes` at the empty state. -/
theorem push_marks_before_writes_wit :
    pushF ⟨∅, [], []⟩ r0 "w1" true true = .ok ⟨{"w1"}, [r0], [r0]⟩ ∧
    pushF ⟨∅, [], []⟩ r0 "w1" true false = .error ⟨{"w1"}, [r0], []⟩ ∧
    pushF ⟨∅, [], []⟩ r0 "w1" false false = .error ⟨{"w1"}, [], []⟩ := by
  have h := push_marks_before_writes ⟨∅, [], []⟩ r0 "w1" (by simp)
  simpa using h

/-- C2: across two run segments with the ledger carried over through a
durable save/load (`hload`), an identifier `u` unseen at the start is
written exactly `min 1 (number of offers of u)` times — once when offered
at least once, never twice — and within a segment both sinks receive
exactly the rows of the accepted offers, so each sink holds exactly one
row originating from an offer of `u`. -/
theorem persist_exactly_once (st : PState) (offers1 offers2 : List (Row × String))
    (u : String) (h : u ∉ st.seen) (S2 : Finset String)
    (hload : load_seen (.stored (save_seen (offersRun st offers1).seen)) = .ok S2) :
    (accepted st.seen offers1 ++ accepted S2 offers2).countP (fun p => p.2 = u) =
      min 1 ((offers1 ++ offers2).countP (fun p => p.2 = u)) ∧
    (offersRun st offers1).sinkA =
      st.sinkA ++ (accepted st.seen offers1).map Prod.fst ∧
    (offersRun st offers1).sinkB =
      st.sinkB ++ (accepted st.seen offers1).map Prod.fst := by
  have hseen : (offersRun st offers1).seen = seenAfter st.seen offers1 := by
    rw [offersRun_eq]
  rw [hseen, save_load_eq] at hload
  have hS2 : S2 = seenAfter st.seen offers1 := (Except.ok.inj hload).symm
  refine ⟨?_, ?_, ?_⟩
  · rw [hS2, ← accepted_append, accepted_countP]
    simp [h]
  · rw [offersRun_eq]
  · rw [offersRun_eq]

/-- C2, witness: `uid0` offered twice in run one and once more in run two
(after a ledger save/load round-trip) is accepted exactly once. -/
theorem persist_exactly_once_wit :
    (accepted (∅ : Finset String) offersA ++
        accepted (offersRun ⟨∅, [], []⟩ offersA).seen offersB).countP
      (fun p => p.2 = uid0) = 1 := by
  have h := (persist_exactly_once ⟨∅, [], []⟩ offersA offersB uid0 (by simp)
    (offersRun ⟨∅, [], []⟩ offersA).seen (save_load_eq _)).1
  rw [h]
  decide

/-- C3, counterexample: the claim says `load` returns the empty set and
never raises on malformed content; in the code only `FileNotFoundError`
is caught, so a file whose content does not deserialize raises
`json.JSONDecodeError` instead of producing the empty set. -/
theorem load_seen_raises_on_malformed :
    load_seen .malformed = .error "JSONDecodeError" ∧
    load_seen .malformed ≠ .ok (∅ : Finset String) := by
  constructor
  · rfl
  · simp [load_seen]

/-- C3, amended: on a missing ledger file `load_seen` returns the empty
set (so the run treats all records as new), but on malformed content the
deserialization error propagates and the run raises; a well-formed stored
list loads as the set of its elements. -/
theorem load_seen_spec :
    load_seen .absent = .ok (∅ : Finset String) ∧
    load_seen .malformed = .error "JSONDecodeError" ∧
    ∀ ids : List String, load_seen (.stored ids) = .ok ids.toFinset :=
  ⟨rfl, rfl, fun _ => rfl⟩

/-- C4, counterexample: the claim says a record with an empty identifier
is skipped with neither sink written and the Ledger unchanged; in the
code `push` has no empty-identifier check, so from the empty state the
record is written to both sinks and `""` is added to the ledger. -/
theorem push_persists_empty_identifier :
    (push ⟨∅, [], []⟩ r0 "").sinkA = [r0] ∧
    (push ⟨∅, [], []⟩ r0 "").sinkB = [r0] ∧
    "" ∈ (push ⟨∅, [], []⟩ r0 "").seen := by
  refine ⟨rfl, rfl, ?_⟩
  simp [push, is_new]

/-- C4, amended: `push` applies no special handling to the empty
identifier — it goes through the ordinary dedup gate: when `""` is
unseen the record is written to both sinks and `""` is marked seen, and
a second offer with the empty identifier is then skipped as a duplicate. -/
theorem push_empty_identifier_plain_dedup (st : PState) (row : Row)
    (h : "" ∉ st.seen) :
    push st row "" = ⟨insert "" st.seen, st.sinkA ++ [row], st.sinkB ++ [row]⟩ ∧
    push (push st row "") row "" = push st row "" := by
  have h1 : (is_new st.seen "").1 = true := by simp [is_new, h]
  have hfst : push st row "" =
      ⟨insert "" st.seen, st.sinkA ++ [row], st.sinkB ++ [row]⟩ := by
    simp [push, h1, is_new_snd]
  refine ⟨hfst, ?_⟩
  rw [hfst]
  have h2 : (is_new (insert "" st.seen) "").1 = false := by
    simp [is_new]
  simp [push, h2, is_new_snd, Finset.insert_idem]

/-- C4, witness for `push_empty_identifier_plain_dedup` at the empty state. -/
theorem push_empty_identifier_plain_dedup_wit :
    push ⟨∅, [], []⟩ r0 "" = ⟨{""}, [r0], [r0]⟩ ∧
    push (push ⟨∅, [], []⟩ r0 "") r0 "" = push ⟨∅, [], []⟩ r0 "" := by
  have h := push_empty_identifier_plain_dedup ⟨∅, [], []⟩ r0 (by simp)
  simpa using h

/-- C5: with the default `tries = 3` against a target failing on every
attempt, `get_feed` performs exactly 3 attempts, sleeping
`3 * 2 ^ (attempt - 1) + jitter` between consecutive attempts (base
delay 3, jitter drawn in `[0, 1)`), the two delays are strictly
increasing, and the call returns the terminal empty feed with no further
attempts. -/
theorem get_feed_retry_bound (outcome : Nat → Option Feed)
    (hfail : ∀ n, outcome n = none) (jitter : Nat → ℚ)
    (hj : ∀ n, 0 ≤ jitter n ∧ jitter n < 1) :
    get_feed outcome jitter 3 =
      (some emptyFeed, 3, [3 * 2 ^ 0 + jitter 0, 3 * 2 ^ 1 + jitter 1]) ∧
    3 * 2 ^ 0 + jitter 0 < 3 * 2 ^ 1 + jitter 1 := by
  constructor
  · simp [get_feed, get_feedGo, hfail]
  · have h0 := (hj 0).2
    have h1 := (hj 1).1
    have e0 : (3 : ℚ) * 2 ^ 0 = 3 := by norm_num
    have e1 : (3 : ℚ) * 2 ^ 1 = 6 := by norm_num
    rw [e0, e1]
    linarith

/-- C5, witness with jitter fixed at 1/2. -/
theorem get_feed_retry_bound_wit :
    get_feed (fun _ => none) (fun _ => (1 : ℚ) / 2) 3 =
      (some emptyFeed, 3,
        [3 * 2 ^ 0 + (1 : ℚ) / 2, 3 * 2 ^ 1 + (1 : ℚ) / 2]) ∧
    3 * 2 ^ 0 + (1 : ℚ) / 2 < 3 * 2 ^ 1 + (1 : ℚ) / 2 :=
  get_feed_retry_bound (fun _ => none) (fun _ => rfl)
    (fun _ => (1 : ℚ) / 2) (fun _ => ⟨by norm_num, by norm_num⟩)

/-- C6: when the retry budget is exhausted the fetch result presents zero
entries to the feed loop, and a run in which that failed source sits
between any other sources persists exactly what it would have persisted
without the failed source — one source's terminal failure never aborts
the run or loses the other adapters' records. -/
theorem failed_source_isolated (outcome : Nat → Option Feed)
    (hfail : ∀ n, outcome n = none) (jitter : Nat → ℚ)
    (st : PState) (pre post : List (List (Row × String))) :
    feedEntries (get_feed outcome jitter 3).1 = [] ∧
    runSources st (pre ++ feedEntries (get_feed outcome jitter 3).1 :: post) =
      runSources st (pre ++ post) := by
  have hterm : (get_feed outcome jitter 3).1 = some emptyFeed := by
    simp [get_feed, get_feedGo, hfail]
  rw [hterm]
  constructor
  · rfl
  · show runSources st (pre ++ [] :: post) = runSources st (pre ++ post)
    simp [runSources, List.foldl_append, offersRun]

/-- C6, witness: a failing middle source between two healthy ones. -/
theorem failed_source_isolated_wit :
    feedEntries (get_feed (fun _ => none) (fun _ => 0) 3).1 = [] ∧
    runSources ⟨∅, [], []⟩
        ([[(r0, uid0)]] ++
          feedEntries (get_feed (fun _ => none) (fun _ => 0) 3).1 ::
          [[(r0, "other-uid")]]) =
      runSources ⟨∅, [], []⟩ ([[(r0, uid0)]] ++ [[(r0, "other-uid")]]) :=
  failed_source_isolated (fun _ => none) (fun _ => rfl) (fun _ => 0)
    ⟨∅, [], []⟩ [[(r0, uid0)]] [[(r0, "other-uid")]]

/-- C7: the flush overwrites the durable ledger file — whatever its prior
state — with exactly the current set serialized in sorted order: the
serialized list is sorted, contains no duplicates, and has precisely the
set's elements. -/
theorem flush_sorted_complete (s : Finset String) (old : LedgerFile) :
    flushLedger s old = .stored (save_seen s) ∧
    List.Sorted (· ≤ ·) (save_seen s) ∧
    (save_seen s).Nodup ∧
    ∀ x, x ∈ save_seen s ↔ x ∈ s := by
  refine ⟨rfl, ?_, ?_, fun x => ?_⟩
  · exact Finset.sort_sorted _ _
  · exact Finset.sort_nodup _ _
  · exact Finset.mem_sort _

/-- C8: both sink writes receive the very same row value, so starting
from sinks in agreement, after any sequence of offers the two sinks are
identical lists — for every accepted record the sink A row and the
sink B row carry identical values in all five columns. -/
theorem sinks_never_disagree (st : PState) (offers : List (Row × String))
    (h : st.sinkA = st.sinkB) :
    (offersRun st offers).sinkA = (offersRun st offers).sinkB := by
  rw [offersRun_eq]
  simp [h]

/-- C8, witness at the empty state. -/
theorem sinks_never_disagree_wit :
    (offersRun ⟨∅, [], []⟩ offersA).sinkA =
      (offersRun ⟨∅, [], []⟩ offersA).sinkB :=
  sinks_never_disagree ⟨∅, [], []⟩ offersA rfl

/-- C9: marking an identifier seen (the `seen.add` inside `is_new`) is
idempotent: marking twice yields the same ledger as marking once, and
marking an identifier already present leaves the ledger unchanged. -/
theorem markSeen_idempotent (s : Finset String) (u : String) :
    (is_new (is_new s u).2 u).2 = (is_new s u).2 ∧
    (u ∈ s → (is_new s u).2 = s) := by
  constructor
  · rw [is_new_snd, is_new_snd]
    exact Finset.insert_idem _ _
  · intro h
    rw [is_new_snd]
    exact Finset.insert_eq_self.mpr h

/-- C9, witness at a singleton ledger already containing `uid0`. -/
theorem markSeen_idempotent_wit :
    (is_new (is_new {uid0} uid0).2 uid0).2 = (is_new {uid0} uid0).2 ∧
    (is_new {uid0} uid0).2 = {uid0} :=
  ⟨(markSeen_idempotent {uid0} uid0).1,
   (markSeen_idempotent {uid0} uid0).2 (Finset.mem_singleton_self uid0)⟩

/-- C10: flushing any set of identifiers to the ledger file and loading
it back returns exactly the same set — serialization loses and invents
nothing. -/
theorem ledger_roundtrip (s : Finset String) :
    load_seen (.stored (save_seen s)) = .ok s :=
  save_load_eq s

end MarketSignals
